import Mathlib

/-!
Shallow embedding of `src/detect_black.py` (black-frame detection utility).

Conventions of the embedding:
* Python `float` values are modelled as exact rationals (`ℚ`).  Where a
  claim hinges on IEEE-754 rounding we evaluate the embedding at the exact
  rational value of the relevant double; at such inputs every floating-point
  operation performed by the code happens to be exact, so the rational
  evaluation coincides with the real run.
* Python strings are modelled as `List Char`.
* The regular expressions of the source are translated into equivalent
  deterministic character-list parsers (the patterns involved have no
  observable backtracking, as argued in the doc comment of each parser).
* Filesystem, environment and subprocess interaction is modelled by explicit
  state records / line lists passed to the embedded functions.
-/

attribute [local semireducible] Rat.mul Rat.inv Rat.add Rat.sub

namespace DetectBlack

/-- Decimal digit characters of a natural number, most significant first
(fuel-based recursion; fuel `n + 1` always suffices). -/
def natCharsAux : Nat → Nat → List Char
  | 0, _ => []
  | fuel + 1, n => if n = 0 then [] else natCharsAux fuel (n / 10) ++ [Char.ofNat (48 + n % 10)]

/-- Decimal representation of a natural number, as Python `str`/`format` print it. -/
def natChars (n : Nat) : List Char :=
  if n = 0 then ['0'] else natCharsAux (n + 1) n

/-- Python zero-padded integer formatting `f"{v:0w}"`: pads with zeros on the
left up to width `w`; for a negative value the minus sign precedes the zeros. -/
def padInt (w : Nat) (v : Int) : List Char :=
  if v < 0 then
    '-' :: (List.replicate (w - 1 - (natChars v.natAbs).length) '0' ++ natChars v.natAbs)
  else
    List.replicate (w - (natChars v.toNat).length) '0' ++ natChars v.toNat

/-- Python float floor-division `x // y`, in exact rational arithmetic. -/
def pyFloorDiv (x y : ℚ) : ℚ := (((x / y).floor : ℤ) : ℚ)

/-- Python float modulo `x % y`, in exact rational arithmetic
(`x % y = x - y * (x // y)` with floor division, the Python semantics). -/
def pyMod (x y : ℚ) : ℚ := x - y * (((x / y).floor : ℤ) : ℚ)

/-- Python `int(x)` on a float: truncation toward zero. -/
def pyTrunc (x : ℚ) : ℤ := if x < 0 then -(-x).floor else x.floor

/-- Embedding of `format_time_full` (src/detect_black.py lines 102-111):
formats a seconds value as `hh:mm:ss:ms` with zero-padded fields. -/
def format_time_full (seconds : ℚ) : List Char :=
  let hours : ℤ := pyTrunc (pyFloorDiv seconds 3600)
  let minutes : ℤ := pyTrunc (pyFloorDiv (pyMod seconds 3600) 60)
  let secs : ℤ := pyTrunc (pyMod seconds 60)
  let msecs : ℤ := pyTrunc ((seconds - ((pyTrunc seconds : ℤ) : ℚ)) * 1000)
  padInt 2 hours ++ ':' :: (padInt 2 minutes ++ ':' :: (padInt 2 secs ++ ':' :: padInt 3 msecs))

/-- Python `str.split(sep)` for a one-character separator: splits at every
occurrence of the separator and keeps empty fields (so the result is never
the empty list). -/
def splitChar (sep : Char) : List Char → List (List Char)
  | [] => [[]]
  | c :: cs =>
    if c = sep then [] :: splitChar sep cs
    else
      match splitChar sep cs with
      | [] => [[c]]
      | p :: ps => (c :: p) :: ps

/-- Numeric value of a run of decimal digit characters, as Python `float`
computes it for the integral part of a decimal literal. -/
def natOfDigits (ds : List Char) : Nat :=
  ds.foldl (fun a c => 10 * a + (c.toNat - 48)) 0

/-- Value of a run of decimal digit characters read as a fractional part. -/
def fracOfDigits (ds : List Char) : ℚ :=
  (natOfDigits ds : ℚ) / (10 : ℚ) ^ ds.length

/-- Python `float(s)` on an unsigned plain decimal string: an optional run of
digits, an optional dot followed by an optional run of digits, at least one
digit overall, nothing else.  (The exotic inputs `float` also accepts —
exponents, `inf`, `nan`, underscores, surrounding whitespace — never match the
digit-and-dot regex groups this program applies `float` to, so they are left
out of the model.)  `none` models a raised `ValueError`.
The function is split into `pyFloatTail`, which receives the maximal leading
digit run and the remainder of the string. -/
def pyFloatTail (ip : List Char) : List Char → Option ℚ
  | [] => if ip.isEmpty then none else some ((natOfDigits ip : ℚ))
  | c :: fp =>
    if c == '.' && fp.all Char.isDigit && !(ip.isEmpty && fp.isEmpty) then
      some ((natOfDigits ip : ℚ) + fracOfDigits fp)
    else none

def pyFloatUnsigned (cs : List Char) : Option ℚ :=
  pyFloatTail (cs.takeWhile Char.isDigit) (cs.dropWhile Char.isDigit)

/-- Python `float(s)` on a plain decimal string with an optional sign. -/
def pyFloat : List Char → Option ℚ
  | [] => none
  | c :: rest =>
    if c = '-' then (pyFloatUnsigned rest).map (fun q => -q)
    else if c = '+' then pyFloatUnsigned rest
    else pyFloatUnsigned (c :: rest)

/-- Body of the `try` block of `time_str_to_seconds` (src/detect_black.py
lines 92-97): split on colons, convert the first three fields with `float`,
combine.  `none` models an exception (`IndexError` when there are fewer than
three fields, `ValueError` when one of the three fields is not numeric). -/
def time_str_to_secondsE (time_str : List Char) : Option ℚ :=
  match splitChar ':' time_str with
  | p0 :: p1 :: p2 :: _ =>
    match pyFloat p0, pyFloat p1, pyFloat p2 with
    | some hours, some minutes, some seconds => some (hours * 3600 + minutes * 60 + seconds)
    | _, _, _ => none
  | _ => none

/-- Embedding of `time_str_to_seconds` (src/detect_black.py lines 88-99): the
`except` clause turns any exception of the body into the result `0.0`. -/
def time_str_to_seconds (time_str : List Char) : ℚ :=
  (time_str_to_secondsE time_str).getD 0

/-- Python whitespace (the regex class \s and str.strip, ASCII range). -/
def pyIsSpace (c : Char) : Bool :=
  c = ' ' || c = '\t' || c = '\n' || c = '\r' || c = '\x0b' || c = '\x0c'

/-- Python `str.strip()`: whitespace removed from both ends. -/
def pyStrip (cs : List Char) : List Char :=
  ((cs.dropWhile pyIsSpace).reverse.dropWhile pyIsSpace).reverse

/-- Attempt to match the pattern `START_TIME\s*=\s*"([^"]+)"` at the head of
the string, returning the quoted group.  The group `[^"]+` is greedy and must
be followed by a quote; since it can never cross a quote, a failing greedy
reading cannot be rescued by backtracking, so this deterministic translation
is exact. -/
def matchStartTimeAt (cs : List Char) : Option (List Char) :=
  if cs.take 10 = ("START_TIME").toList then
    match (cs.drop 10).dropWhile pyIsSpace with
    | [] => none
    | e :: r2 =>
      if e = '=' then
        match r2.dropWhile pyIsSpace with
        | [] => none
        | q :: r4 =>
          if q = '"' then
            match r4.dropWhile (fun c => !(c == '"')) with
            | [] => none
            | _ :: _ =>
              if (r4.takeWhile (fun c => !(c == '"'))).isEmpty then none
              else some (r4.takeWhile (fun c => !(c == '"')))
          else none
      else none
  else none

/-- Embedding of `pattern.search` (src/detect_black.py line 128): scan left to
right for the first position where the START_TIME pattern matches. -/
def searchStartTime : List Char → Option (List Char)
  | [] => none
  | c :: cs =>
    match matchStartTimeAt (c :: cs) with
    | some g => some g
    | none => searchStartTime cs

/-- Tail step of `parseMarkedNat`: given the maximal leading digit run `ip` of
the original input `cs` and the remainder, succeed only when the remainder
starts with the marker and at least one digit was read. -/
def markedTail (marker : Char) (ip : List Char) (cs : List Char) :
    List Char → Option (List Char) × List Char
  | [] => (none, cs)
  | c :: r => if c = marker && !ip.isEmpty then (some ip, r) else (none, cs)

/-- Embedding of one optional component `(?:(\d+)<marker>)?` of the
START_TIME time pattern (src/detect_black.py line 132), anchored at the
current position: greedily read digits, require the marker, else consume
nothing.  A shorter digit run is followed by a digit, never by the marker, so
regex backtracking cannot succeed where this greedy reading fails. -/
def parseMarkedNat (marker : Char) (cs : List Char) : Option (List Char) × List Char :=
  markedTail marker (cs.takeWhile Char.isDigit) cs (cs.dropWhile Char.isDigit)

/-- Second tail step of the seconds component: after digits `d` and a dot,
with fractional digit run `f`, require at least one fractional digit and a
following letter s. -/
def secTail2 (cs d f : List Char) : List Char → Option (List Char) × List Char
  | [] => (none, cs)
  | c :: r3 => if c = 's' && !f.isEmpty then (some (d ++ '.' :: f), r3) else (none, cs)

/-- First tail step of the seconds component: after a nonempty digit run `d`,
either a letter s closes the component, or a dot opens the fractional part. -/
def secTail1 (cs d : List Char) : List Char → Option (List Char) × List Char
  | [] => (none, cs)
  | c :: r2 =>
    if c = 's' then (some d, r2)
    else if c = '.' then secTail2 cs d (r2.takeWhile Char.isDigit) (r2.dropWhile Char.isDigit)
    else (none, cs)

/-- Embedding of the optional component `(?:(\d+(?:\.\d+)?)s)?` of the
START_TIME time pattern, anchored at the current position.  When the next
character after the digit run is a dot, the greedy fractional alternative is
the only one that can reach the required letter s, and shorter digit runs are
followed by digits — so the deterministic reading below is again exact. -/
def parseSecondsComp (cs : List Char) : Option (List Char) × List Char :=
  if (cs.takeWhile Char.isDigit).isEmpty then (none, cs)
  else secTail1 cs (cs.takeWhile Char.isDigit) (cs.dropWhile Char.isDigit)

/-- Embedding of `time_pattern.match(time_str)` (src/detect_black.py lines
132-133): the three optional components are matched in order from the start
of the string; since every component is optional the match object always
exists, and trailing unmatched text is ignored.  Returns the three captured
groups. -/
def timeMatchGroups (cs : List Char) :
    Option (List Char) × Option (List Char) × Option (List Char) :=
  ((parseMarkedNat 'h' cs).1,
   (parseMarkedNat 'm' (parseMarkedNat 'h' cs).2).1,
   (parseSecondsComp (parseMarkedNat 'm' (parseMarkedNat 'h' cs).2).2).1)

/-- Python `float(match.group(i)) if match.group(i) else 0.0` (src lines
135-137): a missing group counts as zero, a present group is converted with
`float` (which can in principle raise, hence the `Option`). -/
def groupVal : Option (List Char) → Option ℚ
  | some d => pyFloat d
  | none => some 0

/-- Value computed from a START_TIME value string by lines 132-138 of the
source: match the time pattern, convert the three groups (the groups are
spelled out rather than taken from `timeMatchGroups`, to which this is
definitionally equal), combine.  `none` models an exception escaping to the
enclosing `try`. -/
def timeValueBody (v : List Char) : Option ℚ :=
  match groupVal (parseMarkedNat 'h' v).1,
        groupVal (parseMarkedNat 'm' (parseMarkedNat 'h' v).2).1,
        groupVal (parseSecondsComp (parseMarkedNat 'm' (parseMarkedNat 'h' v).2).2).1 with
  | some hours, some minutes, some seconds => some (hours * 3600 + minutes * 60 + seconds)
  | _, _, _ => none

/-- Body of the `try` block of `parse_ini_offset` (src/detect_black.py lines
124-138) applied to the file content: search for the START_TIME assignment;
without a match the offset stays 0.0, with a match the stripped value is run
through the time pattern. -/
def iniOffsetBody (content : List Char) : Option ℚ :=
  match searchStartTime content with
  | none => some 0
  | some g => timeValueBody (pyStrip g)

/-- Embedding of `parse_ini_offset` (src/detect_black.py lines 114-141).  The
argument is the file content, `none` standing for an unreadable file (`open`
raises); the `except` clause maps any exception to offset 0.0. -/
def parse_ini_offset : Option (List Char) → ℚ
  | none => 0
  | some cs => (iniOffsetBody cs).getD 0

/-- Hours component string of a START_TIME value: empty when missing. -/
def hPart (d : List Char) : List Char := if d.isEmpty then [] else d ++ ['h']

/-- Minutes component string of a START_TIME value: empty when missing. -/
def mPart (d : List Char) : List Char := if d.isEmpty then [] else d ++ ['m']

/-- Seconds component string of a START_TIME value, with optional fractional
digits: empty when missing. -/
def secPart (sd fd : List Char) : List Char :=
  if sd.isEmpty then [] else sd ++ ((if fd.isEmpty then [] else '.' :: fd) ++ ['s'])

/-- Builder for a START_TIME value string of the optional-component shape
`<N>h <N>m <N>(.N)s`: an empty digit list denotes a missing component (the
fractional digits only appear together with the integral seconds digits). -/
def mkTimeValue (hd md sd fd : List Char) : List Char :=
  hPart hd ++ (mPart md ++ secPart sd fd)

/-- One detected black interval, the dictionary built on lines 187-191 of the
source.  The dictionary key named end in Python is called `stop` here, since
that word is reserved in Lean. -/
structure BlackInterval where
  start : ℚ
  stop : ℚ
  duration : ℚ
deriving DecidableEq

/-- Character class `[\d\.]` of the black-detect pattern. -/
def isDigitDot (c : Char) : Bool := c.isDigit || c == '.'

/-- Attempt to match the pattern
`black_start:([\d\.]+)\s+black_end:([\d\.]+)\s+black_duration:([\d\.]+)` at
the head of the string (src/detect_black.py line 171), returning the three
captured groups.  Each greedy `[\d\.]+` run is followed by a non-member
character, and the `\s+` runs border the literal letter b, so backtracking
cannot produce a different match and the greedy reading below is exact. -/
def matchBlackAt (cs : List Char) : Option (List Char × List Char × List Char) :=
  if cs.take 12 = ("black_start:").toList then
    if ((cs.drop 12).takeWhile isDigitDot).isEmpty then none
    else
      matchBlackEnd ((cs.drop 12).takeWhile isDigitDot) ((cs.drop 12).dropWhile isDigitDot)
  else none
where
  /-- Continuation after the first captured group. -/
  matchBlackEnd (d1 r1 : List Char) : Option (List Char × List Char × List Char) :=
    if (r1.takeWhile pyIsSpace).isEmpty then none
    else
      matchBlackEnd2 d1 (r1.dropWhile pyIsSpace)
  /-- Continuation at the literal `black_end:`. -/
  matchBlackEnd2 (d1 r2 : List Char) : Option (List Char × List Char × List Char) :=
    if r2.take 10 = ("black_end:").toList then
      if ((r2.drop 10).takeWhile isDigitDot).isEmpty then none
      else
        matchBlackDur d1 ((r2.drop 10).takeWhile isDigitDot) ((r2.drop 10).dropWhile isDigitDot)
    else none
  /-- Continuation after the second captured group. -/
  matchBlackDur (d1 d2 r3 : List Char) : Option (List Char × List Char × List Char) :=
    if (r3.takeWhile pyIsSpace).isEmpty then none
    else
      matchBlackDur2 d1 d2 (r3.dropWhile pyIsSpace)
  /-- Continuation at the literal `black_duration:`. -/
  matchBlackDur2 (d1 d2 r4 : List Char) : Option (List Char × List Char × List Char) :=
    if r4.take 15 = ("black_duration:").toList then
      if ((r4.drop 15).takeWhile isDigitDot).isEmpty then none
      else some (d1, d2, (r4.drop 15).takeWhile isDigitDot)
    else none

/-- Embedding of `black_pattern.search`: leftmost match. -/
def searchBlack : List Char → Option (List Char × List Char × List Char)
  | [] => none
  | c :: cs =>
    match matchBlackAt (c :: cs) with
    | some g => some g
    | none => searchBlack cs

/-- Attempt to match the progress pattern `time=(\d{2}:\d{2}:\d{2}\.\d+)`
(src/detect_black.py line 170) at the head of the string. -/
def matchTimeAt (cs : List Char) : Option (List Char) :=
  if cs.take 5 = ("time=").toList then
    match cs.drop 5 with
    | d1 :: d2 :: c1 :: d3 :: d4 :: c2 :: d5 :: d6 :: dot :: rest =>
      if d1.isDigit && d2.isDigit && c1 == ':' && d3.isDigit && d4.isDigit && c2 == ':'
          && d5.isDigit && d6.isDigit && dot == '.' then
        if (rest.takeWhile Char.isDigit).isEmpty then none
        else some ([d1, d2, ':', d3, d4, ':', d5, d6, '.'] ++ rest.takeWhile Char.isDigit)
      else none
    | _ => none
  else none

/-- Embedding of `time_pattern.search`: leftmost match. -/
def searchTime : List Char → Option (List Char)
  | [] => none
  | c :: cs =>
    match matchTimeAt (c :: cs) with
    | some g => some g
    | none => searchTime cs

/-- Effect of one line of the diagnostic stream on the loop of
`detect_black_frames` (src/detect_black.py lines 175-191).  The progress
display written to stdout is not modelled, but its computation is: a matched
`time=` token divides by `total_duration`, which raises `ZeroDivisionError`
when the total duration is zero — result `none` models such an uncaught
exception (also raised by `float` on a matched black group such as `...` that
is not a valid number).  `some none` is a line without black token,
`some (some iv)` appends one interval. -/
def lineStep (total : ℚ) (line : List Char) : Option (Option BlackInterval) :=
  if (searchTime (pyStrip line)).isSome && total == 0 then none
  else
    match searchBlack (pyStrip line) with
    | none => some none
    | some (d1, d2, d3) =>
      match pyFloat d1, pyFloat d2, pyFloat d3 with
      | some s, some e, some d => some (some ⟨s, e, d⟩)
      | _, _, _ => none

/-- Outcome of a run of `detect_black_frames`: a normal interval list, a
fatal abort after an interrupt (the Boolean records that the child process
was terminated, the string is the exit message), or an uncaught exception
propagating out of the function. -/
inductive RunResult where
  | ok : List BlackInterval → RunResult
  | fatal : Bool → List Char → RunResult
  | crash : RunResult
deriving DecidableEq

/-- Decrement an interrupt schedule by one processed line. -/
def interruptDec : Option Nat → Option Nat
  | none => none
  | some n => some (n - 1)

/-- The streaming loop of `detect_black_frames` (src/detect_black.py lines
174-196).  The interrupt schedule `some k` delivers a `KeyboardInterrupt`
after `k` lines have been processed — before the next line, or during the
final `proc.wait()` when the stream is exhausted; the `except` clause then
terminates the child and exits fatally, so the accumulated intervals are
discarded.  `none` means no interrupt arrives. -/
def detectLoop (total : ℚ) :
    List (List Char) → Option Nat → List BlackInterval → RunResult
  | _, some 0, _ => .fatal true (("Processus interrompu par l'utilisateur.").toList)
  | [], _, acc => .ok acc
  | l :: ls, intr, acc =>
    match lineStep total l with
    | none => .crash
    | some none => detectLoop total ls (interruptDec intr) acc
    | some (some iv) => detectLoop total ls (interruptDec intr) (acc ++ [iv])

/-- Embedding of `detect_black_frames` (src/detect_black.py lines 144-197):
the subprocess diagnostic stream is the list of its lines, and the interrupt
schedule stands for the operator's `KeyboardInterrupt`. -/
def detect_black_frames (total : ℚ) (lines : List (List Char))
    (intr : Option Nat) : RunResult :=
  detectLoop total lines intr []

/-- The filesystem, environment and platform state that `find_ffmpeg`
consults (src/detect_black.py lines 10-37): the FFMPEG_PATH variable, file
and directory tests, `shutil.which("ffmpeg")`, `sys._MEIPASS`, the script
directory, `os.name == "nt"` and the path separator of `os.path.join`. -/
structure FsState where
  ffmpegEnv : Option String
  isDir : String → Bool
  isFile : String → Bool
  whichFFmpeg : Option String
  meipass : Option String
  scriptDir : String
  isWindows : Bool
  sep : String

/-- Name of the ffmpeg executable on the current platform. -/
def exeName (fs : FsState) : String := if fs.isWindows then "ffmpeg.exe" else "ffmpeg"

/-- `os.path.join` of a directory and one component. -/
def joinPath (fs : FsState) (a b : String) : String := a ++ fs.sep ++ b

/-- The bundled `bin` directory next to the running program
(`sys._MEIPASS` when frozen by PyInstaller, else the script directory). -/
def bundledDir (fs : FsState) : String :=
  joinPath fs (match fs.meipass with | some d => d | none => fs.scriptDir) "bin"

/-- Fallback of `find_ffmpeg` after the environment variable (lines 28-37):
the bundled executable if it is a file, else the system search path. -/
def ffmpegFallback (fs : FsState) : Option String :=
  if fs.isFile (joinPath fs (bundledDir fs) (exeName fs)) then
    some (joinPath fs (bundledDir fs) (exeName fs))
  else fs.whichFFmpeg

/-- Embedding of `find_ffmpeg` (src/detect_black.py lines 10-37): (1) an
FFMPEG_PATH environment variable naming the executable or a directory that
contains it — an empty variable is falsy and skipped, and a set variable
pointing at a non-file falls through; (2) the bundled `bin` directory;
(3) the system search path. -/
def find_ffmpeg (fs : FsState) : Option String :=
  match fs.ffmpegEnv with
  | none => ffmpegFallback fs
  | some envPath =>
    if envPath ≠ "" then
      if fs.isFile (if fs.isDir envPath then joinPath fs envPath (exeName fs) else envPath) then
        some (if fs.isDir envPath then joinPath fs envPath (exeName fs) else envPath)
      else ffmpegFallback fs
    else ffmpegFallback fs

/-- A concrete filesystem state in which all three candidate locations hold
an ffmpeg executable: the FFMPEG_PATH directory, the bundled `bin` directory
and the system search path. -/
def sampleFs : FsState :=
  ⟨some "/opt/ffdir", fun s => s == "/opt/ffdir",
   fun s => s == "/opt/ffdir/ffmpeg" || s == "/app/bin/ffmpeg",
   some "/usr/bin/ffmpeg", none, "/app", false, "/"⟩

/-- The line printed for one interval by the report loop (src/detect_black.py
lines 240-244): the offset is added to start and end before formatting, the
duration is formatted as is. -/
def interval_report_line (offset : ℚ) (seq : BlackInterval) : List Char :=
  ("Début : ").toList ++ format_time_full (seq.start + offset)
    ++ (", Fin : ").toList ++ format_time_full (seq.stop + offset)
    ++ (", Durée : ").toList ++ format_time_full seq.duration

/-- The lines printed by the report section of `main` (src/detect_black.py
lines 237-248), one list entry per `print` call: a header (or the
no-intervals message), the per-interval loop, and the final count. -/
def report_print_run (results : List BlackInterval) (offset : ℚ) : List (List Char) :=
  (if results.isEmpty then [("\nAucune séquence noire détectée.").toList]
   else ("\nSéquences noires détectées :").toList ::
     results.foldl (fun acc seq => acc ++ [interval_report_line offset seq]) []) ++
  [("\nNombres de séquences détectées = ").toList ++ natChars results.length
    ++ (" Séquences").toList]

theorem splitChar_ne_nil (sep : Char) (cs : List Char) : splitChar sep cs ≠ [] := by
  cases cs with
  | nil => simp [splitChar]
  | cons c cs =>
    simp only [splitChar]
    split
    · simp
    · cases h : splitChar sep cs <;> simp

theorem splitChar_of_not_mem {sep : Char} {a : List Char} (h : sep ∉ a) :
    splitChar sep a = [a] := by
  induction a with
  | nil => rfl
  | cons c a ih =>
    have hc : ¬ c = sep := fun e => h (e ▸ List.mem_cons_self c a)
    have ha : sep ∉ a := fun m => h (List.mem_cons_of_mem c m)
    simp only [splitChar, if_neg hc, ih ha]

theorem splitChar_append {sep : Char} {a : List Char} (r : List Char) (h : sep ∉ a) :
    splitChar sep (a ++ sep :: r) = a :: splitChar sep r := by
  induction a with
  | nil => simp [splitChar]
  | cons c a ih =>
    have hc : ¬ c = sep := fun e => h (e ▸ List.mem_cons_self c a)
    have ha : sep ∉ a := fun m => h (List.mem_cons_of_mem c m)
    simp only [List.cons_append, splitChar, if_neg hc, List.append_eq]
    rw [ih ha]

/-- Every character of a string accepted by `pyFloatUnsigned` is a digit or a
dot. -/
theorem pyFloatUnsigned_chars {cs : List Char} {q : ℚ} (h : pyFloatUnsigned cs = some q) :
    ∀ x ∈ cs, x.isDigit = true ∨ x = '.' := by
  intro x hx
  rw [← List.takeWhile_append_dropWhile Char.isDigit cs] at hx
  rcases List.mem_append.mp hx with hx | hx
  · exact Or.inl (List.mem_takeWhile_imp hx)
  · unfold pyFloatUnsigned at h
    cases hd : cs.dropWhile Char.isDigit with
    | nil => rw [hd] at hx; cases hx
    | cons c fp =>
      rw [hd] at h hx
      simp only [pyFloatTail] at h
      by_cases hb : (c == '.' && fp.all Char.isDigit
          && !((cs.takeWhile Char.isDigit).isEmpty && fp.isEmpty)) = true
      · simp only [Bool.and_eq_true, beq_iff_eq] at hb
        rcases List.mem_cons.mp hx with rfl | hx
        · exact Or.inr hb.1.1
        · refine Or.inl ?_
          have := hb.1.2
          rw [List.all_eq_true] at this
          exact this x hx
      · rw [if_neg hb] at h; cases h

/-- Every character of a string accepted by `pyFloat` is a digit, dot or sign. -/
theorem pyFloat_chars {cs : List Char} {q : ℚ} (h : pyFloat cs = some q) :
    ∀ x ∈ cs, x.isDigit = true ∨ x = '.' ∨ x = '-' ∨ x = '+' := by
  intro x hx
  cases cs with
  | nil => cases hx
  | cons c rest =>
    simp only [pyFloat] at h
    by_cases h1 : c = '-'
    · rw [if_pos h1] at h
      cases hm : pyFloatUnsigned rest with
      | none => rw [hm] at h; cases h
      | some q0 =>
        rcases List.mem_cons.mp hx with rfl | hx
        · exact Or.inr (Or.inr (Or.inl h1))
        · rcases pyFloatUnsigned_chars hm x hx with hd | hd
          · exact Or.inl hd
          · exact Or.inr (Or.inl hd)
    · rw [if_neg h1] at h
      by_cases h2 : c = '+'
      · rw [if_pos h2] at h
        rcases List.mem_cons.mp hx with rfl | hx
        · exact Or.inr (Or.inr (Or.inr h2))
        · rcases pyFloatUnsigned_chars h x hx with hd | hd
          · exact Or.inl hd
          · exact Or.inr (Or.inl hd)
      · rw [if_neg h2] at h
        rcases pyFloatUnsigned_chars h x hx with hd | hd
        · exact Or.inl hd
        · exact Or.inr (Or.inl hd)

/-- A string accepted by `pyFloat` contains no colon, so splitting a
colon-joined time string recovers its fields. -/
theorem pyFloat_colon_not_mem {cs : List Char} {q : ℚ} (h : pyFloat cs = some q) :
    (':') ∉ cs := by
  intro hx
  rcases pyFloat_chars h ':' hx with h1 | h1 | h1 | h1 <;> exact absurd h1 (by decide)

theorem ne_nil_of_not_isEmpty {l : List Char} (h : (!l.isEmpty) = true) : l ≠ [] := by
  cases l with
  | nil => cases h
  | cons a t => simp

theorem takeWhile_digits_all {d : List Char} (hd : ∀ x ∈ d, Char.isDigit x = true) :
    d.takeWhile Char.isDigit = d ∧ d.dropWhile Char.isDigit = [] := by
  induction d with
  | nil => exact ⟨rfl, rfl⟩
  | cons c d ih =>
    have hc : Char.isDigit c = true := hd c (List.mem_cons_self c d)
    have hrest := ih (fun x hx => hd x (List.mem_cons_of_mem c hx))
    exact ⟨by rw [List.takeWhile_cons_of_pos hc, hrest.1],
           by rw [List.dropWhile_cons_of_pos hc, hrest.2]⟩

/-- Decomposition of take/dropWhile at the first non-digit of `d ++ c :: r`
when `d` is all digits. -/
theorem takeWhile_digits_append {d : List Char} {c : Char} (r : List Char)
    (hd : ∀ x ∈ d, Char.isDigit x = true) (hc : Char.isDigit c = false) :
    (d ++ c :: r).takeWhile Char.isDigit = d ∧
      (d ++ c :: r).dropWhile Char.isDigit = c :: r := by
  induction d with
  | nil =>
    have hcn : ¬ Char.isDigit c = true := by simp [hc]
    simp only [List.nil_append]
    exact ⟨List.takeWhile_cons_of_neg hcn, List.dropWhile_cons_of_neg hcn⟩
  | cons a d ih =>
    have ha : Char.isDigit a = true := hd a (List.mem_cons_self a d)
    have hrest := ih (fun x hx => hd x (List.mem_cons_of_mem a hx))
    exact ⟨by rw [List.cons_append, List.takeWhile_cons_of_pos ha, hrest.1],
           by rw [List.cons_append, List.dropWhile_cons_of_pos ha, hrest.2]⟩

/-- Python `float` on a nonempty run of digits (as produced by the regex
groups `\d+`) always succeeds, with the expected value. -/
theorem pyFloat_digits {d : List Char} (hne : d ≠ [])
    (hd : ∀ x ∈ d, Char.isDigit x = true) :
    pyFloat d = some ((natOfDigits d : ℚ)) := by
  cases d with
  | nil => cases hne rfl
  | cons c rest =>
    have hc : Char.isDigit c = true := hd c (List.mem_cons_self c rest)
    have h1 : ¬ c = '-' := by intro e; rw [e] at hc; exact absurd hc (by decide)
    have h2 : ¬ c = '+' := by intro e; rw [e] at hc; exact absurd hc (by decide)
    simp only [pyFloat, if_neg h1, if_neg h2]
    unfold pyFloatUnsigned
    rw [(takeWhile_digits_all hd).1, (takeWhile_digits_all hd).2]
    simp [pyFloatTail]

/-- Python `float` on `digits.digits` (as produced by the regex group
`\d+(?:\.\d+)?`) always succeeds, with the expected value. -/
theorem pyFloat_digits_dot {d f : List Char} (hdne : d ≠ [])
    (hd : ∀ x ∈ d, Char.isDigit x = true) (hf : ∀ x ∈ f, Char.isDigit x = true) :
    pyFloat (d ++ '.' :: f) = some ((natOfDigits d : ℚ) + fracOfDigits f) := by
  cases d with
  | nil => cases hdne rfl
  | cons c rest =>
    have hc : Char.isDigit c = true := hd c (List.mem_cons_self c rest)
    have h1 : ¬ c = '-' := by intro e; rw [e] at hc; exact absurd hc (by decide)
    have h2 : ¬ c = '+' := by intro e; rw [e] at hc; exact absurd hc (by decide)
    rw [List.cons_append]
    simp only [pyFloat, if_neg h1, if_neg h2]
    rw [← List.cons_append]
    unfold pyFloatUnsigned
    rw [(takeWhile_digits_append f hd (by decide)).1,
        (takeWhile_digits_append f hd (by decide)).2]
    have hfa : f.all Char.isDigit = true := List.all_eq_true.mpr hf
    simp [pyFloatTail, hfa]

theorem dropWhile_eq_self_of_head {p : Char → Bool} {cs : List Char}
    (h : ∀ x ∈ cs, p x = false) : cs.dropWhile p = cs := by
  cases cs with
  | nil => rfl
  | cons c r =>
    have : ¬ p c = true := by simp [h c (List.mem_cons_self c r)]
    exact List.dropWhile_cons_of_neg this

/-- Stripping a string without whitespace is the identity. -/
theorem pyStrip_eq_self {cs : List Char} (h : ∀ x ∈ cs, pyIsSpace x = false) :
    pyStrip cs = cs := by
  unfold pyStrip
  rw [dropWhile_eq_self_of_head h]
  rw [dropWhile_eq_self_of_head (fun x hx => h x (List.mem_reverse.mp hx))]
  exact List.reverse_reverse cs

/-- A marked component matches when the input starts `digits marker`. -/
theorem parseMarkedNat_marker {m : Char} {d : List Char} (r : List Char)
    (hne : d ≠ []) (hd : ∀ x ∈ d, Char.isDigit x = true)
    (hm : Char.isDigit m = false) :
    parseMarkedNat m (d ++ m :: r) = (some d, r) := by
  unfold parseMarkedNat
  rw [(takeWhile_digits_append r hd hm).1, (takeWhile_digits_append r hd hm).2]
  obtain ⟨e, d0, rfl⟩ := List.exists_cons_of_ne_nil hne
  simp [markedTail]

/-- A marked component consumes nothing when the first non-digit is not the
marker. -/
theorem parseMarkedNat_other {m c : Char} {d : List Char} (r : List Char)
    (hd : ∀ x ∈ d, Char.isDigit x = true) (hc : Char.isDigit c = false)
    (hcm : c ≠ m) :
    parseMarkedNat m (d ++ c :: r) = (none, d ++ c :: r) := by
  unfold parseMarkedNat
  rw [(takeWhile_digits_append r hd hc).2]
  simp [markedTail, hcm]

/-- A marked component consumes nothing on an all-digit input. -/
theorem parseMarkedNat_digits {m : Char} {d : List Char}
    (hd : ∀ x ∈ d, Char.isDigit x = true) :
    parseMarkedNat m d = (none, d) := by
  unfold parseMarkedNat
  rw [(takeWhile_digits_all hd).2]
  rfl

/-- The seconds component matches `digits s`. -/
theorem parseSecondsComp_nofrac {d : List Char} (r : List Char)
    (hne : d ≠ []) (hd : ∀ x ∈ d, Char.isDigit x = true) :
    parseSecondsComp (d ++ 's' :: r) = (some d, r) := by
  unfold parseSecondsComp
  rw [(takeWhile_digits_append r hd (by decide)).1,
      (takeWhile_digits_append r hd (by decide)).2]
  obtain ⟨e, d0, rfl⟩ := List.exists_cons_of_ne_nil hne
  rw [if_neg (by simp)]
  simp [secTail1]

/-- The seconds component matches `digits.digits s`. -/
theorem parseSecondsComp_frac {d f : List Char} (r : List Char)
    (hdne : d ≠ []) (hfne : f ≠ [])
    (hd : ∀ x ∈ d, Char.isDigit x = true) (hf : ∀ x ∈ f, Char.isDigit x = true) :
    parseSecondsComp (d ++ '.' :: (f ++ 's' :: r)) = (some (d ++ '.' :: f), r) := by
  unfold parseSecondsComp
  rw [(takeWhile_digits_append _ hd (by decide)).1,
      (takeWhile_digits_append _ hd (by decide)).2]
  obtain ⟨e, d0, rfl⟩ := List.exists_cons_of_ne_nil hdne
  rw [if_neg (by simp)]
  simp only [secTail1]
  rw [if_neg (by decide)]
  rw [if_pos trivial]
  rw [(takeWhile_digits_append r hf (by decide)).1,
      (takeWhile_digits_append r hf (by decide)).2]
  obtain ⟨e2, f0, rfl⟩ := List.exists_cons_of_ne_nil hfne
  simp [secTail2]

/-- First stage of the time pattern on a built value: the hours group. -/
theorem stage_h {hd md sd : List Char} (fd : List Char)
    (h1 : ∀ x ∈ hd, Char.isDigit x = true) (h2 : ∀ x ∈ md, Char.isDigit x = true)
    (h3 : ∀ x ∈ sd, Char.isDigit x = true) :
    parseMarkedNat 'h' (mkTimeValue hd md sd fd) =
      ((if hd.isEmpty then none else some hd), mPart md ++ secPart sd fd) := by
  unfold mkTimeValue hPart
  by_cases hhd : hd.isEmpty = true
  · rw [if_pos hhd, if_pos hhd, List.nil_append]
    unfold mPart
    by_cases hmd : md.isEmpty = true
    · rw [if_pos hmd, List.nil_append]
      unfold secPart
      by_cases hsd : sd.isEmpty = true
      · rw [if_pos hsd]
        exact parseMarkedNat_digits (by intro x hx; cases hx)
      · rw [if_neg hsd]
        by_cases hfd : fd.isEmpty = true
        · rw [if_pos hfd, List.nil_append]
          exact parseMarkedNat_other ([]) h3 (by decide) (by decide)
        · rw [if_neg hfd]
          rw [List.cons_append]
          exact parseMarkedNat_other _ h3 (by decide) (by decide)
    · rw [if_neg hmd]
      rw [List.append_assoc]
      exact parseMarkedNat_other _ h2 (by decide) (by decide)
  · rw [if_neg hhd, if_neg hhd]
    rw [List.append_assoc]
    exact parseMarkedNat_marker _ (by simpa using hhd) h1 (by decide)

/-- Second stage of the time pattern on a built value: the minutes group. -/
theorem stage_m {md sd : List Char} (fd : List Char)
    (h2 : ∀ x ∈ md, Char.isDigit x = true) (h3 : ∀ x ∈ sd, Char.isDigit x = true) :
    parseMarkedNat 'm' (mPart md ++ secPart sd fd) =
      ((if md.isEmpty then none else some md), secPart sd fd) := by
  unfold mPart
  by_cases hmd : md.isEmpty = true
  · rw [if_pos hmd, if_pos hmd, List.nil_append]
    unfold secPart
    by_cases hsd : sd.isEmpty = true
    · rw [if_pos hsd]
      exact parseMarkedNat_digits (by intro x hx; cases hx)
    · rw [if_neg hsd]
      by_cases hfd : fd.isEmpty = true
      · rw [if_pos hfd, List.nil_append]
        exact parseMarkedNat_other ([]) h3 (by decide) (by decide)
      · rw [if_neg hfd]
        rw [List.cons_append]
        exact parseMarkedNat_other _ h3 (by decide) (by decide)
  · rw [if_neg hmd, if_neg hmd]
    rw [List.append_assoc]
    exact parseMarkedNat_marker _ (by simpa using hmd) h2 (by decide)

/-- Third stage of the time pattern on a built value: the seconds group,
already combined with `float` as the source does. -/
theorem stage_s {sd fd : List Char}
    (h3 : ∀ x ∈ sd, Char.isDigit x = true) (h4 : ∀ x ∈ fd, Char.isDigit x = true)
    (hsf : sd = [] → fd = []) :
    groupVal (parseSecondsComp (secPart sd fd)).1 =
      some ((natOfDigits sd : ℚ) + fracOfDigits fd) := by
  unfold secPart
  by_cases hsd : sd.isEmpty = true
  · have hsd0 : sd = [] := by simpa using hsd
    have hfd0 : fd = [] := hsf hsd0
    rw [if_pos hsd, hsd0, hfd0]
    show groupVal none = some ((natOfDigits ([]) : ℚ) + fracOfDigits ([]))
    simp [groupVal, natOfDigits, fracOfDigits]
  · have hsne : sd ≠ [] := by simpa using hsd
    rw [if_neg hsd]
    by_cases hfd : fd.isEmpty = true
    · have hfd0 : fd = [] := by simpa using hfd
      rw [if_pos hfd, List.nil_append, hfd0]
      rw [show (['s'] : List Char) = 's' :: [] from rfl]
      rw [parseSecondsComp_nofrac ([]) hsne h3]
      show groupVal (some sd) = _
      rw [groupVal, pyFloat_digits hsne h3]
      simp [fracOfDigits, natOfDigits]
    · have hfne : fd ≠ [] := by simpa using hfd
      rw [if_neg hfd]
      rw [show ('.' :: fd ++ ['s'] : List Char) = '.' :: (fd ++ 's' :: []) by simp]
      rw [parseSecondsComp_frac ([]) hsne hfne h3 h4]
      show groupVal (some (sd ++ '.' :: fd)) = _
      rw [groupVal, pyFloat_digits_dot hsne h3 h4]

/-- When a marked group matched, `float` of it succeeds and is the digit
value. -/
theorem groupVal_marked {d : List Char} (hd : ∀ x ∈ d, Char.isDigit x = true) :
    groupVal (if d.isEmpty then none else some d) = some ((natOfDigits d : ℚ)) := by
  by_cases h : d.isEmpty = true
  · have h0 : d = [] := by simpa using h
    rw [if_pos h, h0]
    simp [groupVal, natOfDigits]
  · rw [if_neg h, groupVal, pyFloat_digits (by simpa using h) hd]

/-- Evaluation of the `try` body of `time_str_to_seconds` on a well-formed
colon-joined string. -/
theorem time_str_to_secondsE_fields {a b c : List Char} {qa qb qc : ℚ}
    (ha : pyFloat a = some qa) (hb : pyFloat b = some qb) (hc : pyFloat c = some qc) :
    time_str_to_secondsE (a ++ ':' :: (b ++ ':' :: c)) = some (qa * 3600 + qb * 60 + qc) := by
  unfold time_str_to_secondsE
  rw [splitChar_append _ (pyFloat_colon_not_mem ha),
      splitChar_append _ (pyFloat_colon_not_mem hb),
      splitChar_of_not_mem (pyFloat_colon_not_mem hc)]
  simp only [ha, hb, hc]

/-- A matched `(\d+)` group of the time pattern is a nonempty digit run. -/
theorem parseMarkedNat_some {m : Char} {cs g r : List Char}
    (h : parseMarkedNat m cs = (some g, r)) :
    g ≠ [] ∧ ∀ x ∈ g, Char.isDigit x = true := by
  unfold parseMarkedNat at h
  cases hd : cs.dropWhile Char.isDigit with
  | nil => rw [hd] at h; simp [markedTail] at h
  | cons c r2 =>
    rw [hd] at h
    simp only [markedTail] at h
    by_cases hb : (c = m && !(cs.takeWhile Char.isDigit).isEmpty) = true
    · rw [if_pos hb] at h
      injection h with h1 h2
      injection h1 with h1
      rw [Bool.and_eq_true] at hb
      subst h1
      exact ⟨ne_nil_of_not_isEmpty hb.2, fun x hx => List.mem_takeWhile_imp hx⟩
    · rw [if_neg hb] at h
      injection h with h1 h2
      exact Option.noConfusion h1

theorem fracOfDigits_nonneg (ds : List Char) : 0 ≤ fracOfDigits ds := by
  unfold fracOfDigits
  exact div_nonneg (Nat.cast_nonneg _) (pow_nonneg (by norm_num) _)

/-- A matched seconds group of the time pattern is a string `float` accepts,
with a nonnegative value. -/
theorem parseSecondsComp_some {cs g r : List Char}
    (h : parseSecondsComp cs = (some g, r)) :
    ∃ q, pyFloat g = some q ∧ 0 ≤ q := by
  unfold parseSecondsComp at h
  by_cases he : (cs.takeWhile Char.isDigit).isEmpty = true
  · rw [if_pos he] at h
    injection h with h1 h2
    exact Option.noConfusion h1
  · rw [if_neg he] at h
    have hdne : cs.takeWhile Char.isDigit ≠ [] := by
      intro e; rw [e] at he; exact he rfl
    have hdd : ∀ x ∈ cs.takeWhile Char.isDigit, Char.isDigit x = true :=
      fun x hx => List.mem_takeWhile_imp hx
    cases hr : cs.dropWhile Char.isDigit with
    | nil =>
      rw [hr] at h
      simp only [secTail1] at h
      injection h with h1 h2
      exact Option.noConfusion h1
    | cons c r2 =>
      rw [hr] at h
      simp only [secTail1] at h
      by_cases hs1 : c = 's'
      · rw [if_pos hs1] at h
        injection h with ha hb
        injection ha with ha
        refine ⟨(natOfDigits (cs.takeWhile Char.isDigit) : ℚ), ?_, Nat.cast_nonneg _⟩
        rw [← ha]
        exact pyFloat_digits hdne hdd
      · rw [if_neg hs1] at h
        by_cases hs2 : c = '.'
        · rw [if_pos hs2] at h
          cases hr3 : r2.dropWhile Char.isDigit with
          | nil =>
            rw [hr3] at h
            simp only [secTail2] at h
            injection h with h1 h2
            exact Option.noConfusion h1
          | cons c2 r3 =>
            rw [hr3] at h
            simp only [secTail2] at h
            by_cases hs3 : (c2 = 's' && !(r2.takeWhile Char.isDigit).isEmpty) = true
            · rw [if_pos hs3] at h
              injection h with ha hb
              injection ha with ha
              have hfd : ∀ x ∈ r2.takeWhile Char.isDigit, Char.isDigit x = true :=
                fun x hx => List.mem_takeWhile_imp hx
              refine ⟨(natOfDigits (cs.takeWhile Char.isDigit) : ℚ)
                  + fracOfDigits (r2.takeWhile Char.isDigit), ?_, ?_⟩
              · rw [← ha]
                exact pyFloat_digits_dot hdne hdd hfd
              · exact add_nonneg (Nat.cast_nonneg _) (fracOfDigits_nonneg _)
            · rw [if_neg hs3] at h
              injection h with ha hb
              exact Option.noConfusion ha
        · rw [if_neg hs2] at h
          injection h with ha hb
          exact Option.noConfusion ha

/-- A converted marked group is nonnegative. -/
theorem groupVal_markedNat_nonneg {m : Char} {w : List Char} {q : ℚ}
    (h : groupVal (parseMarkedNat m w).1 = some q) : 0 ≤ q := by
  cases hg : (parseMarkedNat m w).1 with
  | none =>
    rw [hg] at h
    simp only [groupVal] at h
    injection h with h
    rw [← h]
  | some g =>
    rw [hg] at h
    simp only [groupVal] at h
    have hpair : parseMarkedNat m w = (some g, (parseMarkedNat m w).2) := by
      rw [← hg]
    obtain ⟨hne, hdd⟩ := parseMarkedNat_some hpair
    rw [pyFloat_digits hne hdd] at h
    injection h with h
    rw [← h]
    exact Nat.cast_nonneg _

/-- A converted seconds group is nonnegative. -/
theorem groupVal_seconds_nonneg {w : List Char} {q : ℚ}
    (h : groupVal (parseSecondsComp w).1 = some q) : 0 ≤ q := by
  cases hg : (parseSecondsComp w).1 with
  | none =>
    rw [hg] at h
    simp only [groupVal] at h
    injection h with h
    rw [← h]
  | some g =>
    rw [hg] at h
    simp only [groupVal] at h
    have hpair : parseSecondsComp w = (some g, (parseSecondsComp w).2) := by
      rw [← hg]
    obtain ⟨q0, hq0, hq0n⟩ := parseSecondsComp_some hpair
    rw [hq0] at h
    injection h with h
    rw [← h]
    exact hq0n

/-- Any value the time pattern body produces is nonnegative. -/
theorem timeValueBody_nonneg {v : List Char} {q : ℚ} (h : timeValueBody v = some q) :
    0 ≤ q := by
  unfold timeValueBody at h
  cases hv1 : groupVal (parseMarkedNat 'h' v).1 with
  | none => rw [hv1] at h; simp at h
  | some q1 =>
    rw [hv1] at h
    cases hv2 : groupVal (parseMarkedNat 'm' (parseMarkedNat 'h' v).2).1 with
    | none => rw [hv2] at h; simp at h
    | some q2 =>
      rw [hv2] at h
      cases hv3 :
          groupVal (parseSecondsComp (parseMarkedNat 'm' (parseMarkedNat 'h' v).2).2).1 with
      | none => rw [hv3] at h; simp at h
      | some q3 =>
        rw [hv3] at h
        simp only [Option.some.injEq] at h
        rw [← h]
        have n1 := groupVal_markedNat_nonneg hv1
        have n2 := groupVal_markedNat_nonneg hv2
        have n3 := groupVal_seconds_nonneg hv3
        have h60 : (0:ℚ) ≤ 3600 := by norm_num
        have h61 : (0:ℚ) ≤ 60 := by norm_num
        exact add_nonneg (add_nonneg (mul_nonneg n1 h60) (mul_nonneg n2 h61)) n3

/-- Value of the time pattern applied to a built START_TIME value string. -/
theorem timeValueBody_mkTimeValue {hd md sd fd : List Char}
    (h1 : ∀ x ∈ hd, Char.isDigit x = true) (h2 : ∀ x ∈ md, Char.isDigit x = true)
    (h3 : ∀ x ∈ sd, Char.isDigit x = true) (h4 : ∀ x ∈ fd, Char.isDigit x = true)
    (hsf : sd = [] → fd = []) :
    timeValueBody (mkTimeValue hd md sd fd) =
      some ((natOfDigits hd : ℚ) * 3600 + (natOfDigits md : ℚ) * 60 +
        ((natOfDigits sd : ℚ) + fracOfDigits fd)) := by
  have e1 := stage_h fd h1 h2 h3
  have e2 := stage_m fd h2 h3
  unfold timeValueBody
  rw [e1]
  simp only [e2]
  rw [groupVal_marked h1, groupVal_marked h2, stage_s h3 h4 hsf]

end DetectBlack

namespace DetectBlack

/-- C1: the docstring example `format_time_full(867.799) = "00:14:27:799"` holds
for the exact rational value 867.799 = 867799/1000 (first conjunct), but the
Python float literal `867.799` denotes the IEEE-754 double
954155091072385/2^40 < 867.799, at which the code returns `"00:14:27:798"`
(second conjunct): the milliseconds field truncates 798.999... to 798.  At that
double every float operation of the function is exact, so the rational
evaluation coincides with the real run: the code contradicts its own docstring. -/
theorem c1_format_time_full_867799 :
    format_time_full (867799 / 1000) = ("00:14:27:799").toList ∧
    format_time_full (954155091072385 / 1099511627776) = ("00:14:27:798").toList := by
  constructor <;> decide

/-- C2: for every valid colon-separated time string — three fields, each a
decimal accepted by Python `float` — `time_str_to_seconds` returns exactly
`hours * 3600 + minutes * 60 + seconds` (so in particular it is within
millisecond precision of any hand-computed value). -/
theorem c2_time_str_to_seconds_valid (a b c : List Char) (qa qb qc : ℚ)
    (ha : pyFloat a = some qa) (hb : pyFloat b = some qb) (hc : pyFloat c = some qc) :
    time_str_to_seconds (a ++ ':' :: (b ++ ':' :: c)) = qa * 3600 + qb * 60 + qc := by
  have hna := pyFloat_colon_not_mem ha
  have hnb := pyFloat_colon_not_mem hb
  have hnc := pyFloat_colon_not_mem hc
  unfold time_str_to_seconds time_str_to_secondsE
  rw [splitChar_append _ hna, splitChar_append _ hnb, splitChar_of_not_mem hnc]
  simp only [ha, hb, hc, Option.getD_some]

/-- Witness for C2 at the concrete instance of the spec:
`"00:14:27.799"` evaluates to 867.799 = 867799/1000 seconds. -/
theorem c2_witness :
    pyFloat (("00").toList) = some 0 ∧ pyFloat (("14").toList) = some 14 ∧
    pyFloat (("27.799").toList) = some (27799 / 1000) ∧
    time_str_to_seconds (("00:14:27.799").toList) = 867799 / 1000 := by
  refine ⟨by decide, by decide, by decide, ?_⟩
  have h := c2_time_str_to_seconds_valid (("00").toList) (("14").toList) (("27.799").toList)
      0 14 (27799 / 1000) (by decide) (by decide) (by decide)
  have e : ("00:14:27.799").toList
      = ("00").toList ++ ':' :: (("14").toList ++ ':' :: ("27.799").toList) := rfl
  rw [e, h]
  norm_num

/-- C9 counterexample: the claim quantifies over every string with a
non-numeric colon-separated field, but fields after the third are ignored by
the code: `"1:2:3:x"` has the non-numeric field `"x"` yet the function
returns 3723.0, not 0.0. -/
theorem c9_counterexample :
    ("x").toList ∈ splitChar ':' (("1:2:3:x").toList) ∧
    pyFloat (("x").toList) = none ∧
    time_str_to_seconds (("1:2:3:x").toList) = 3723 ∧
    time_str_to_seconds (("1:2:3:x").toList) ≠ 0 := by
  refine ⟨by decide, by decide, by decide, by decide⟩

/-- C9 amended: for every input whose colon-split has fewer than three fields,
or one of the FIRST THREE fields is not numeric, `time_str_to_seconds` raises
no error and returns 0.0 (fields beyond the third are ignored). -/
theorem c9_invalid_time_str_returns_zero (cs : List Char)
    (h : (splitChar ':' cs).length < 3 ∨
      ∃ p ∈ (splitChar ':' cs).take 3, pyFloat p = none) :
    time_str_to_seconds cs = 0 := by
  unfold time_str_to_seconds time_str_to_secondsE
  cases hs : splitChar ':' cs with
  | nil => rfl
  | cons p0 t0 =>
    cases t0 with
    | nil => rfl
    | cons p1 t1 =>
      cases t1 with
      | nil => rfl
      | cons p2 t2 =>
        rw [hs] at h
        rcases h with h | ⟨p, hp, hnone⟩
        · simp at h
          omega
        · simp only [List.take, List.mem_cons] at hp
          rcases hp with rfl | rfl | rfl | hp
          · simp [hnone]
          · cases hq0 : pyFloat p0 <;> simp [hnone, hq0]
          · cases hq0 : pyFloat p0 <;> cases hq1 : pyFloat p1 <;> simp [hnone, hq0, hq1]
          · cases hp

/-- Witness for the amended C9 at a concrete invalid input. -/
theorem c9_witness :
    (splitChar ':' (("garbage").toList)).length < 3 ∧
    time_str_to_seconds (("garbage").toList) = 0 := by
  refine ⟨by decide, ?_⟩
  exact c9_invalid_time_str_returns_zero (("garbage").toList) (Or.inl (by decide))

/-- C3: `parse_ini_offset` returns 0.0 when no START_TIME assignment is found
(first conjunct); on the spec example content it returns 38182.01 seconds
(second conjunct); and in general, when the found START_TIME value is a string
of optional `<N>h`, `<N>m`, `<N>(.N)s` components, it returns
hours * 3600 + minutes * 60 + seconds with every missing component counted as
zero (third conjunct: an empty digit list denotes a missing component, and
`natOfDigits [] = 0`, `fracOfDigits [] = 0`). -/
theorem c3_parse_ini_offset :
    (∀ content, searchStartTime content = none → parse_ini_offset (some content) = 0) ∧
    parse_ini_offset (some (("VIDEO\nSTART_TIME=\"10h36m22.010s\"\nEND").toList))
      = 3818201 / 100 ∧
    (∀ hd md sd fd content v,
      (∀ x ∈ hd, Char.isDigit x = true) → (∀ x ∈ md, Char.isDigit x = true) →
      (∀ x ∈ sd, Char.isDigit x = true) → (∀ x ∈ fd, Char.isDigit x = true) →
      (sd = [] → fd = []) →
      searchStartTime content = some v →
      pyStrip v = mkTimeValue hd md sd fd →
      parse_ini_offset (some content) =
        (natOfDigits hd : ℚ) * 3600 + (natOfDigits md : ℚ) * 60 +
          ((natOfDigits sd : ℚ) + fracOfDigits fd)) := by
  refine ⟨?_, by decide, ?_⟩
  · intro content h
    show (iniOffsetBody content).getD 0 = 0
    unfold iniOffsetBody
    rw [h]
    rfl
  · intro hd md sd fd content v h1 h2 h3 h4 hsf hs hv
    show (iniOffsetBody content).getD 0 = _
    unfold iniOffsetBody
    rw [hs]
    simp only
    rw [hv, timeValueBody_mkTimeValue h1 h2 h3 h4 hsf]
    rfl

/-- Witness for C3 at the spec instance `START_TIME="10h36m22.010s"`. -/
theorem c3_witness :
    parse_ini_offset (some (("START_TIME=\"10h36m22.010s\"").toList)) = 3818201 / 100 ∧
    parse_ini_offset (some (("no assignment").toList)) = 0 := by
  constructor
  · have h := c3_parse_ini_offset.2.2 (("10").toList) (("36").toList) (("22").toList)
        (("010").toList) (("START_TIME=\"10h36m22.010s\"").toList)
        (("10h36m22.010s").toList)
        (by decide) (by decide) (by decide) (by decide)
        (fun e => absurd e (by decide)) (by decide) (by decide)
    rw [h]
    decide
  · exact c3_parse_ini_offset.1 (("no assignment").toList) (by decide)

/-- C7: offset-metadata failure is silently recovered as offset 0.0: an
unreadable file (conjunct 1), a file without a START_TIME assignment
(conjunct 2) and a START_TIME value in which no time component matches
(conjunct 3) all give 0.0, and the embedded function is total, so no error
escapes.  Conjunct 4 supports the "only recovered failure in the program"
part: the one other recovery site, `time_str_to_seconds`, is only ever fed
strings matched by `time=(\d{2}:\d{2}:\d{2}\.\d+)`, and on every such string
its `try` body succeeds, so that recovery never actually fires during a run. -/
theorem c7_parse_ini_offset_lenient :
    parse_ini_offset none = 0 ∧
    (∀ content, searchStartTime content = none → parse_ini_offset (some content) = 0) ∧
    (∀ content g, searchStartTime content = some g →
      timeMatchGroups (pyStrip g) = (none, none, none) →
      parse_ini_offset (some content) = 0) ∧
    (∀ (d1 d2 d3 d4 d5 d6 : Char) (ds : List Char),
      d1.isDigit = true → d2.isDigit = true → d3.isDigit = true → d4.isDigit = true →
      d5.isDigit = true → d6.isDigit = true → ds ≠ [] → (∀ x ∈ ds, x.isDigit = true) →
      time_str_to_secondsE ([d1, d2] ++ ':' :: ([d3, d4] ++ ':' :: ([d5, d6] ++ '.' :: ds)))
        ≠ none) := by
  refine ⟨rfl, ?_, ?_, ?_⟩
  · intro content h
    show (iniOffsetBody content).getD 0 = 0
    unfold iniOffsetBody
    rw [h]
    rfl
  · intro content g hs hg
    have e1 : (parseMarkedNat 'h' (pyStrip g)).1 = none := by
      have := congrArg (fun t => t.1) hg
      simpa [timeMatchGroups] using this
    have e2 : (parseMarkedNat 'm' (parseMarkedNat 'h' (pyStrip g)).2).1 = none := by
      have := congrArg (fun t => t.2.1) hg
      simpa [timeMatchGroups] using this
    have e3 : (parseSecondsComp (parseMarkedNat 'm' (parseMarkedNat 'h' (pyStrip g)).2).2).1
        = none := by
      have := congrArg (fun t => t.2.2) hg
      simpa [timeMatchGroups] using this
    show (iniOffsetBody content).getD 0 = 0
    unfold iniOffsetBody
    rw [hs]
    simp only
    unfold timeValueBody
    rw [e1, e2, e3]
    simp [groupVal]
  · intro d1 d2 d3 d4 d5 d6 ds hd1 hd2 hd3 hd4 hd5 hd6 hne hds
    have two : ∀ a b : Char, a.isDigit = true → b.isDigit = true →
        ∀ x ∈ ([a, b] : List Char), x.isDigit = true := by
      intro a b ha hb x hx
      rcases List.mem_cons.mp hx with rfl | hx
      · exact ha
      · rcases List.mem_cons.mp hx with rfl | hx
        · exact hb
        · cases hx
    have ha := pyFloat_digits (by simp) (two d1 d2 hd1 hd2)
    have hb := pyFloat_digits (by simp) (two d3 d4 hd3 hd4)
    have hc := pyFloat_digits_dot (by simp) (two d5 d6 hd5 hd6) hds
    rw [time_str_to_secondsE_fields ha hb hc]
    simp

/-- Witness for C7 at concrete malformed contents and a concrete matched
time token. -/
theorem c7_witness :
    parse_ini_offset (some (("START_TIME=\"garbage\"").toList)) = 0 ∧
    parse_ini_offset (some (("no assignment here").toList)) = 0 ∧
    time_str_to_secondsE (("00:14:27.799").toList) ≠ none := by
  refine ⟨?_, ?_, ?_⟩
  · exact c7_parse_ini_offset_lenient.2.2.1 (("START_TIME=\"garbage\"").toList)
      (("garbage").toList) (by decide) (by decide)
  · exact c7_parse_ini_offset_lenient.2.1 (("no assignment here").toList) (by decide)
  · exact c7_parse_ini_offset_lenient.2.2.2 '0' '0' '1' '4' '2' '7' (("799").toList)
      (by decide) (by decide) (by decide) (by decide) (by decide) (by decide)
      (by decide) (by decide)

/-- A line with no black token and a nonzero total duration has no effect. -/
theorem lineStep_no_black {total : ℚ} {l : List Char} (htotal : total ≠ 0)
    (hb : searchBlack (pyStrip l) = none) : lineStep total l = some none := by
  have h0 : (total == 0) = false := beq_eq_false_iff_ne.mpr htotal
  have h1 : ((searchTime (pyStrip l)).isSome && total == 0) = false := by
    rw [h0, Bool.and_false]
  unfold lineStep
  rw [h1, hb]
  rfl

/-- The spec example line yields exactly the interval (5, 7.5, 2.5),
whatever the total duration is (it contains no progress token). -/
theorem lineStep_black_example (total : ℚ) :
    lineStep total (("black_start:5.0 black_end:7.5 black_duration:2.5").toList)
      = some (some ⟨5, 15 / 2, 5 / 2⟩) := by
  have h1 : ((searchTime (pyStrip
      (("black_start:5.0 black_end:7.5 black_duration:2.5").toList))).isSome
        && total == 0) = false := by
    rw [show searchTime (pyStrip
        (("black_start:5.0 black_end:7.5 black_duration:2.5").toList)) = none from by decide]
    rfl
  unfold lineStep
  rw [h1]
  decide

/-- Lines without black token are skipped by the loop without touching the
accumulator. -/
theorem detectLoop_skip (total : ℚ) (pre rest : List (List Char))
    (acc : List BlackInterval) (htotal : total ≠ 0)
    (hpre : ∀ l ∈ pre, searchBlack (pyStrip l) = none) :
    detectLoop total (pre ++ rest) none acc = detectLoop total rest none acc := by
  induction pre with
  | nil => rfl
  | cons p pre ih =>
    have hstep := lineStep_no_black htotal (hpre p (List.mem_cons_self p pre))
    simp only [List.cons_append, detectLoop, hstep, interruptDec]
    exact ih (fun x hx => hpre x (List.mem_cons_of_mem p hx))

/-- A well-formed matched line at the end of the stream appends exactly one
interval to an otherwise successful run. -/
theorem detectLoop_snoc (total : ℚ) (lines : List (List Char)) (l : List Char)
    (iv : BlackInterval) (hl : lineStep total l = some (some iv)) :
    ∀ acc res, detectLoop total lines none acc = .ok res →
      detectLoop total (lines ++ [l]) none acc = .ok (res ++ [iv]) := by
  induction lines with
  | nil =>
    intro acc res h
    have har : acc = res := by
      have h2 : RunResult.ok acc = RunResult.ok res := h
      injection h2
    subst har
    simp only [List.nil_append, detectLoop, hl, interruptDec]
  | cons p ls ih =>
    intro acc res h
    cases hp : lineStep total p with
    | none =>
      simp only [detectLoop, hp] at h
      cases h
    | some o =>
      cases o with
      | none =>
        simp only [detectLoop, hp, interruptDec] at h
        simp only [List.cons_append, detectLoop, hp, interruptDec]
        exact ih acc res h
      | some iv2 =>
        simp only [detectLoop, hp, interruptDec] at h
        simp only [List.cons_append, detectLoop, hp, interruptDec]
        exact ih (acc ++ [iv2]) res h

/-- An interrupt delivered while lines remain (or during the final wait)
always ends in the fatal branch, discarding the accumulator. -/
theorem detectLoop_interrupt (total : ℚ) :
    ∀ (lines : List (List Char)) (k : Nat) (acc : List BlackInterval),
      k ≤ lines.length → (∀ l ∈ lines.take k, lineStep total l ≠ none) →
      detectLoop total lines (some k) acc
        = .fatal true (("Processus interrompu par l'utilisateur.").toList) := by
  intro lines
  induction lines with
  | nil =>
    intro k acc hk _
    have h0 : k = 0 := Nat.le_zero.mp hk
    subst h0
    rfl
  | cons l ls ih =>
    intro k acc hk hnc
    cases k with
    | zero => rfl
    | succ k =>
      have hl : lineStep total l ≠ none := hnc l (by simp)
      cases hp : lineStep total l with
      | none => exact absurd hp hl
      | some o =>
        have hrest : ∀ x ∈ ls.take k, lineStep total x ≠ none := by
          intro x hx
          exact hnc x (by simp [List.take, List.mem_cons_of_mem, hx])
        have hk2 : k ≤ ls.length := Nat.le_of_succ_le_succ hk
        cases o with
        | none =>
          simp only [detectLoop, hp, interruptDec, Nat.add_sub_cancel]
          exact ih k acc hk2 hrest
        | some iv =>
          simp only [detectLoop, hp, interruptDec, Nat.add_sub_cancel]
          exact ih k (acc ++ [iv]) hk2 hrest

/-- C4: a stream whose only black token line is
`black_start:5.0 black_end:7.5 black_duration:2.5` produces exactly the one
interval (5, 7.5, 2.5) (first conjunct; the total duration must be nonzero
for progress lines not to abort the run), and in general each matched
black token line appends exactly one interval to the result list (second
conjunct). -/
theorem c4_detect_black_frames :
    (∀ (total : ℚ) (pre post : List (List Char)), total ≠ 0 →
      (∀ l ∈ pre, searchBlack (pyStrip l) = none) →
      (∀ l ∈ post, searchBlack (pyStrip l) = none) →
      detect_black_frames total
        (pre ++ ("black_start:5.0 black_end:7.5 black_duration:2.5").toList :: post) none
        = .ok [⟨5, 15 / 2, 5 / 2⟩]) ∧
    (∀ (total : ℚ) (lines : List (List Char)) (l : List Char) (iv : BlackInterval)
        (res : List BlackInterval),
      detect_black_frames total lines none = .ok res →
      lineStep total l = some (some iv) →
      detect_black_frames total (lines ++ [l]) none = .ok (res ++ [iv])) := by
  constructor
  · intro total pre post htotal hpre hpost
    unfold detect_black_frames
    rw [detectLoop_skip total pre _ [] htotal hpre]
    simp only [detectLoop, lineStep_black_example total, interruptDec, List.nil_append]
    have hpost2 : detectLoop total (post ++ []) none [⟨5, 15 / 2, 5 / 2⟩]
        = detectLoop total [] none [⟨5, 15 / 2, 5 / 2⟩] :=
      detectLoop_skip total post [] _ htotal hpost
    rw [List.append_nil] at hpost2
    rw [hpost2]
    rfl
  · intro total lines l iv res h hl
    exact detectLoop_snoc total lines l iv hl [] res h

/-- Witness for C4 at the one-line stream of the spec. -/
theorem c4_witness :
    detect_black_frames 1
      [("black_start:5.0 black_end:7.5 black_duration:2.5").toList] none
      = .ok [⟨5, 15 / 2, 5 / 2⟩] := by
  have h := c4_detect_black_frames.1 1 [] [] (by norm_num)
      (by intro l hl; cases hl) (by intro l hl; cases hl)
  simpa using h

/-- C6: whenever the interrupt arrives during streaming — after `k` processed
lines with at least that many lines in the stream (line `k` may also be the
final wait), and with no earlier uncaught exception — `detect_black_frames`
terminates the child (the `true` flag of the fatal outcome) and exits with
the interrupt message; the fatal outcome carries no interval list, so no
partial results are ever returned. -/
theorem c6_interrupt_no_partial_results (total : ℚ) (lines : List (List Char)) (k : Nat)
    (hk : k ≤ lines.length) (hnc : ∀ l ∈ lines.take k, lineStep total l ≠ none) :
    detect_black_frames total lines (some k)
      = .fatal true (("Processus interrompu par l'utilisateur.").toList) :=
  detectLoop_interrupt total lines k [] hk hnc

/-- Witness for C6: interrupt right after the only line of a stream. -/
theorem c6_witness :
    detect_black_frames 1
      [("black_start:5.0 black_end:7.5 black_duration:2.5").toList] (some 1)
      = .fatal true (("Processus interrompu par l'utilisateur.").toList) := by
  have h := c6_interrupt_no_partial_results 1
      [("black_start:5.0 black_end:7.5 black_duration:2.5").toList] 1
      (by decide) (by decide)
  exact h

/-- C5: whenever FFMPEG_PATH is set and nonempty and names an existing
executable — via a directory containing it (first conjunct) or directly
(second conjunct) — `find_ffmpeg` returns that path, regardless of whether a
bundled copy or a system-path copy also exists (the conclusion does not
constrain them). -/
theorem c5_find_ffmpeg_env_first (fs : FsState) (p : String)
    (he : fs.ffmpegEnv = some p) (hne : p ≠ "") :
    (fs.isDir p = true → fs.isFile (joinPath fs p (exeName fs)) = true →
      find_ffmpeg fs = some (joinPath fs p (exeName fs))) ∧
    (fs.isDir p = false → fs.isFile p = true → find_ffmpeg fs = some p) := by
  constructor
  · intro hdir hfile
    simp only [find_ffmpeg, he]
    rw [if_pos hne, if_pos hdir, if_pos hfile]
  · intro hdir hfile
    have hdir2 : ¬ fs.isDir p = true := by simp [hdir]
    simp only [find_ffmpeg, he]
    rw [if_pos hne, if_neg hdir2, if_pos hfile]

/-- Witness for C5 on a state where all three locations hold an executable:
the FFMPEG_PATH directory wins. -/
theorem c5_witness :
    sampleFs.ffmpegEnv = some "/opt/ffdir" ∧
    sampleFs.isDir "/opt/ffdir" = true ∧
    sampleFs.isFile (joinPath sampleFs (bundledDir sampleFs) (exeName sampleFs)) = true ∧
    sampleFs.whichFFmpeg = some "/usr/bin/ffmpeg" ∧
    find_ffmpeg sampleFs = some "/opt/ffdir/ffmpeg" := by
  refine ⟨rfl, by decide, by decide, rfl, ?_⟩
  have h := (c5_find_ffmpeg_env_first sampleFs "/opt/ffdir" rfl (by decide)).1
      (by decide) (by decide)
  rw [h]
  decide

/-- Appending through a fold is mapping (shape of the report loop). -/
theorem foldl_append_eq_map {α : Type} (f : α → List Char) :
    ∀ (l : List α) (acc : List (List Char)),
      l.foldl (fun acc seq => acc ++ [f seq]) acc = acc ++ l.map f := by
  intro l
  induction l with
  | nil => intro acc; simp
  | cons x xs ih =>
    intro acc
    simp only [List.foldl_cons, List.map_cons]
    rw [ih]
    simp

/-- C8: the report section prints, for each interval in order, one line whose
start and end fields are formatted after adding the offset while the duration
field is formatted without it, plus a header (or no-intervals message) and a
final count line — so the whole output is one line per interval plus the
count. -/
theorem c8_report_offset (results : List BlackInterval) (offset : ℚ) :
    report_print_run results offset =
      (if results.isEmpty then [("\nAucune séquence noire détectée.").toList]
       else ("\nSéquences noires détectées :").toList ::
         results.map (fun seq =>
           ("Début : ").toList ++ format_time_full (seq.start + offset)
             ++ (", Fin : ").toList ++ format_time_full (seq.stop + offset)
             ++ (", Durée : ").toList ++ format_time_full seq.duration)) ++
      [("\nNombres de séquences détectées = ").toList ++ natChars results.length
        ++ (" Séquences").toList] ∧
    (report_print_run results offset).length
      = (if results.isEmpty then 1 else 1 + results.length) + 1 := by
  have hfold : results.foldl (fun acc seq => acc ++ [interval_report_line offset seq]) []
      = results.map (interval_report_line offset) := by
    rw [foldl_append_eq_map]
    simp
  constructor
  · unfold report_print_run
    rw [hfold]
    by_cases h : results.isEmpty
    · rw [if_pos h, if_pos h]
    · rw [if_neg h, if_neg h]
      rfl
  · unfold report_print_run
    rw [hfold]
    by_cases h : results.isEmpty
    · rw [if_pos h, if_pos h]
      simp
    · rw [if_neg h, if_neg h]
      simp
      omega

/-- C10: `parse_ini_offset` returns a nonnegative offset for every input —
unreadable, matchless and matched contents alike, since all captured groups
are digit-only. -/
theorem c10_parse_ini_offset_nonneg (content : Option (List Char)) :
    0 ≤ parse_ini_offset content := by
  cases content with
  | none => exact le_refl 0
  | some cs =>
    show 0 ≤ (iniOffsetBody cs).getD 0
    cases hb : iniOffsetBody cs with
    | none => simp
    | some q =>
      simp only [Option.getD_some]
      unfold iniOffsetBody at hb
      cases hs : searchStartTime cs with
      | none =>
        rw [hs] at hb
        injection hb with hb
        rw [← hb]
      | some g =>
        rw [hs] at hb
        exact timeValueBody_nonneg hb

end DetectBlack
